import Mathlib

/-!
# sample-go-oapi-codegen-strict-server: the handlers and the authentication function of `main.go`

A shallow embedding of `src/main.go`.

* A Go `string` is a sequence of bytes: `GoString` is a list of byte values. String constants
  of the source are written `ascii "..."`.
* A Go `error` value is a `GoError`; `nil` is `none`.
* The `pets` map of `Server` is a finite map with pairwise distinct keys (`AList`).
* A method of `*Server` takes the server and returns the server it leaves behind together with
  what the call did: it returned a `(response, error)` pair, or it panicked.
* Calls to `slog.Info` only log and are left out.
* Library functions the source calls (`strings.Split`, `strconv.ParseInt`, `http.Header.Get`,
  `http.Request.Cookie`, `http.Cookie.String`, `echo.Context.JSON`, `echo.Echo.Use`, the request
  validator middleware) are modelled after their documented behaviour, each next to its use.
-/

namespace StrictServer

/-! ## Strings and errors -/

/-- A Go string: its bytes. -/
abbrev GoString := List Nat

/-- The bytes of an ASCII string constant. -/
def ascii (s : String) : GoString := s.data.map Char.toNat

/-- The two sentinel errors of `strconv`. -/
inductive NumErr where
  | ErrSyntax
  | ErrRange
  deriving DecidableEq, Repr

/-- The error values this program creates. -/
inductive GoError where
  /-- The value of `fmt.Errorf` with a format without `%w`: the formatted message. -/
  | errorf (msg : GoString)
  /-- The value of `fmt.Errorf(prefix + "%w", err)`: message prefix and wrapped error. -/
  | wrap (pre : GoString) (err : GoError)
  /-- The sentinel `http.ErrNoCookie`. -/
  | ErrNoCookie
  /-- A `*strconv.NumError` with its fields `Func`, `Num`, `Err`. -/
  | NumError (Func Num : GoString) (Err : NumErr)
  deriving DecidableEq, Repr

/-! ## `strings.Split` with a one-byte separator -/

/-- The function `strings.Split(s, sep)` for a separator `sep` of one byte: the segments of `s`
between consecutive occurrences of `sep`, in order (one more segment than occurrences). -/
def Split : GoString → Nat → List GoString
  | [], _ => [[]]
  | c :: cs, sep =>
    if c = sep then [] :: Split cs sep
    else
      match Split cs sep with
      | [] => [[c]]
      | seg :: segs => (c :: seg) :: segs

/-! ## The request as the authentication function reads it -/

/-- A `http.Cookie` with the fields the source sets; every other field keeps its zero value. -/
structure Cookie where
  Name : GoString
  Value : GoString
  MaxAge : Int := 0
  deriving DecidableEq, Repr

/-- A `http.Header`: canonical keys with their values. -/
abbrev Header := List (GoString × List GoString)

/-- The method `http.Header.Get` for a key written in canonical form: the first value stored
under the key, the empty string when there is none. -/
def Header.Get (h : Header) (key : GoString) : GoString :=
  match h.lookup key with
  | some (v :: _) => v
  | _ => []

/-- A `http.Request` as far as the program reads it: its header, and the cookies it carries
(what `Request.Cookies` returns). -/
structure Request where
  Header : Header := []
  Cookies : List Cookie := []
  deriving DecidableEq, Repr

/-- The method `http.Request.Cookie(name)`: the first cookie of that name, or `ErrNoCookie`. -/
def Request.Cookie (r : Request) (name : GoString) : Except GoError Cookie :=
  if name = [] then .error .ErrNoCookie
  else
    match r.Cookies.find? (fun c => c.Name = name) with
    | some c => .ok c
    | none => .error .ErrNoCookie

/-- The type `openapi3filter.RequestValidationInput`, its `Request` field. -/
structure RequestValidationInput where
  Request : Request
  deriving DecidableEq, Repr

/-- The type `openapi3filter.AuthenticationInput`. -/
structure AuthenticationInput where
  RequestValidationInput : RequestValidationInput
  SecuritySchemeName : GoString
  deriving DecidableEq, Repr

/-- The `AuthenticationFunc` of `main` (main.go lines 45-79): `none` is the `nil` error. -/
def AuthenticationFunc (ai : AuthenticationInput) : Option GoError :=
  if ai.SecuritySchemeName = ascii "bearerAuth" then
    let authorization := ai.RequestValidationInput.Request.Header.Get (ascii "Authorization")
    let authorizations := Split authorization 32
    match authorizations with
    | [a0, a1] =>
      if a0 ≠ ascii "Bearer" then
        some (.errorf (ascii "invalid token: " ++ authorization))
      else if a1 ≠ ascii "token" then
        some (.errorf (ascii "invalid token: " ++ a1))
      else none
    | _ => some (.errorf (ascii "invalid authorization: " ++ authorization))
  else if ai.SecuritySchemeName = ascii "cookieAuth" then
    match ai.RequestValidationInput.Request.Cookie (ascii "SESSION") with
    | .error err => some (.wrap (ascii "cookie not found: ") err)
    | .ok _ => none
  else
    some (.errorf (ascii "unknown security scheme: " ++ ai.SecuritySchemeName))

/-! ## `strconv.ParseInt` and `strconv.FormatInt`, base 10 and 64 bits -/

/-- A `*strconv.NumError`. -/
structure NumError where
  Func : GoString
  Num : GoString
  Err : NumErr
  deriving DecidableEq, Repr

/-- The largest `uint64`. -/
def maxUint64 : Nat := 2 ^ 64 - 1

/-- The function `lower` of strconv: `c | ('x' - 'X')`. -/
def lower (c : Nat) : Nat := c ||| 32

/-- The digit switch in the loop of `ParseUint` (base 10, so `_` is no digit): the digit value
of a byte, `none` in the `default` case. -/
def digitVal (c : Nat) : Option Nat :=
  if 48 ≤ c ∧ c ≤ 57 then some (c - 48)
  else if 97 ≤ lower c ∧ lower c ≤ 122 then some (lower c - 97 + 10)
  else none

/-- The loop of `strconv.ParseUint(s, 10, 64)` over the bytes not yet read, `n` the value read
so far. With `cutoff = maxUint64/10 + 1` and `maxVal = 1<<64 - 1`; `uint64` arithmetic wraps. -/
def ParseUint.loop (s0 : GoString) : Nat → GoString → Nat × Option NumError
  | n, [] => (n, none)
  | n, c :: cs =>
    match digitVal c with
    | none => (0, some ⟨ascii "ParseUint", s0, .ErrSyntax⟩)
    | some d =>
      if d ≥ 10 then (0, some ⟨ascii "ParseUint", s0, .ErrSyntax⟩)
      else if n ≥ maxUint64 / 10 + 1 then (maxUint64, some ⟨ascii "ParseUint", s0, .ErrRange⟩)
      else
        let n10 := (n * 10) % 2 ^ 64
        let n1 := (n10 + d) % 2 ^ 64
        if n1 < n10 ∨ n1 > maxUint64 then (maxUint64, some ⟨ascii "ParseUint", s0, .ErrRange⟩)
        else ParseUint.loop s0 n1 cs

/-- The function `strconv.ParseUint(s, 10, 64)`: value and error. -/
def ParseUint (s : GoString) : Nat × Option NumError :=
  if s = [] then (0, some ⟨ascii "ParseUint", s, .ErrSyntax⟩)
  else ParseUint.loop s 0 s

/-- The conversion `int64(x)`: the value of `x` modulo `2^64` in the signed range. -/
def toInt64 (x : Int) : Int := (x + 2 ^ 63) % 2 ^ 64 - 2 ^ 63

/-- The step "pick off leading sign" of `ParseInt`: whether the sign is `-`, and the string
after the sign. -/
def ParseInt.sign (s : GoString) : Bool × GoString :=
  match s with
  | 43 :: t => (false, t)
  | 45 :: t => (true, t)
  | _ => (false, s)

/-- The function `strconv.ParseInt(s, 10, 64)`: value and error. -/
def ParseInt (s : GoString) : Int × Option NumError :=
  if s = [] then (0, some ⟨ascii "ParseInt", s, .ErrSyntax⟩)
  else
    let s0 := s
    let neg := (ParseInt.sign s).1
    let s := (ParseInt.sign s).2
    let (un, err) := ParseUint s
    match err with
    | some ⟨_, _, .ErrSyntax⟩ => (0, some ⟨ascii "ParseInt", s0, .ErrSyntax⟩)
    | _ =>
      let cutoff : Nat := 2 ^ 63
      if !neg && decide (un ≥ cutoff) then
        (((cutoff - 1 : Nat) : Int), some ⟨ascii "ParseInt", s0, .ErrRange⟩)
      else if neg && decide (un > cutoff) then
        (-(cutoff : Int), some ⟨ascii "ParseInt", s0, .ErrRange⟩)
      else
        let n := toInt64 un
        if neg then (toInt64 (-n), none) else (n, none)

/-- The digits of `formatBits` for base 10: the decimal digits of `u` put in front of `acc`,
most significant first. The first argument bounds the number of digits. -/
def formatBits : Nat → Nat → GoString → GoString
  | 0, _, acc => acc
  | fuel + 1, u, acc =>
    if u < 10 then (48 + u) :: acc
    else formatBits fuel (u / 10) ((48 + u % 10) :: acc)

/-- The function `strconv.FormatInt(i, 10)`: the base-10 string of `i`, a `-` in front of the
digits of a negative number, no leading zeros. -/
def FormatInt (i : Int) : GoString :=
  if i < 0 then 45 :: formatBits ((-i).toNat + 1) (-i).toNat []
  else formatBits (i.toNat + 1) i.toNat []

/-! ### What the words "a base-10 signed 64-bit integer" mean for a string -/

/-- The bytes are decimal digits, at least one. -/
def isDigits (ds : GoString) : Bool :=
  !ds.isEmpty && ds.all (fun c => decide (48 ≤ c) && decide (c ≤ 57))

/-- The number a string of decimal digits denotes. -/
def digitsValue (ds : GoString) : Nat := ds.foldl (fun a c => 10 * a + (c - 48)) 0

/-- The integer a base-10 literal denotes: an optional sign `+` or `-`, then one or more
decimal digits. `none` for every other string. -/
def decimalValue (s : GoString) : Option Int :=
  match s with
  | 43 :: ds => if isDigits ds then some (digitsValue ds : Int) else none
  | 45 :: ds => if isDigits ds then some (-(digitsValue ds : Int)) else none
  | ds => if isDigits ds then some (digitsValue ds : Int) else none

/-- The value is in the range of `int64`. -/
def inInt64 (i : Int) : Prop := -(2 : Int) ^ 63 ≤ i ∧ i < (2 : Int) ^ 63

instance (i : Int) : Decidable (inInt64 i) := by
  unfold inInt64
  exact inferInstance

/-- The string is a base-10 signed 64-bit integer: a base-10 literal whose value is in the
range of `int64`. -/
def isInt64Decimal (s : GoString) : Prop :=
  match decimalValue s with
  | some v => inInt64 v
  | none => False

instance (s : GoString) : Decidable (isInt64Decimal s) := by
  unfold isInt64Decimal
  split <;> exact inferInstance

/-! ## `http.Cookie.String` -/

/-- The function `httpguts.IsTokenRune` on a byte. -/
def isTokenByte (b : Nat) : Bool :=
  (decide (48 ≤ b) && decide (b ≤ 57)) || (decide (65 ≤ b) && decide (b ≤ 90)) ||
    (decide (97 ≤ b) && decide (b ≤ 122)) ||
    [33, 35, 36, 37, 38, 39, 42, 43, 45, 46, 94, 95, 96, 124, 126].contains b

/-- The function `isCookieNameValid`: not empty and made of token bytes. -/
def isCookieNameValid (raw : GoString) : Bool := !raw.isEmpty && raw.all isTokenByte

/-- The function `validCookieValueByte`. -/
def validCookieValueByte (b : Nat) : Bool :=
  decide (32 ≤ b) && decide (b < 127) && b != 34 && b != 59 && b != 92

/-- The function `sanitizeCookieValue` for a cookie that is not `Quoted`: invalid bytes are
dropped, and a value with a space or a comma is put in double quotes. -/
def sanitizeCookieValue (v : GoString) : GoString :=
  let v := v.filter validCookieValueByte
  if v.isEmpty then v
  else if v.contains 32 || v.contains 44 then 34 :: v ++ [34]
  else v

/-- The method `http.Cookie.String` for a cookie whose fields other than `Name`, `Value` and
`MaxAge` are zero: name, `=`, value, and the `Max-Age` attribute: the seconds for a positive
`MaxAge`, `Max-Age=0` for a negative one, nothing for zero. -/
def Cookie.String (c : Cookie) : GoString :=
  if !isCookieNameValid c.Name then []
  else
    c.Name ++ [61] ++ sanitizeCookieValue c.Value ++
      (if c.MaxAge > 0 then ascii "; Max-Age=" ++ FormatInt c.MaxAge
       else if c.MaxAge < 0 then ascii "; Max-Age=0"
       else [])

/-- The name of the cookie a `Set-Cookie` header value sets: what stands before the first `=`. -/
def setCookieName (header : GoString) : GoString := header.takeWhile (fun b => b != 61)

/-! ## The generated types of package `api` that `main.go` uses -/

/-- Modelled from the spec: the declaration of `api.Pet` (types.gen.go) is not among the
sources; the spec gives a pet an identifier, a name and an optional tag, and the source uses
`Id` as a key of `map[int64]api.Pet` and reads `Name` and `Tag`. -/
structure Pet where
  Id : Int
  Name : GoString
  Tag : Option GoString
  deriving DecidableEq, Repr

/-- The request of `CreatePets`: `Body` is a pointer to a pet. -/
structure CreatePetsRequestObject where
  Body : Option Pet
  deriving DecidableEq, Repr

/-- The response `api.CreatePets201Response`. -/
inductive CreatePetsResponseObject where
  | CreatePets201Response
  deriving DecidableEq, Repr

/-- The request of `ShowPetById`: the path parameter as a string. -/
structure ShowPetByIdRequestObject where
  PetId : GoString
  deriving DecidableEq, Repr

/-- The responses of `ShowPetById`: the 200 response with the fields of a pet, and the 404
response, which the source builds with no field set. -/
inductive ShowPetByIdResponseObject where
  | ShowPetById200JSONResponse (Id : Int) (Name : GoString) (Tag : Option GoString)
  | ShowPetById404JSONResponse
  deriving DecidableEq, Repr

/-- The parameters of `ListPets`: `Limit` is a pointer to an integer (the source reads
`*request.Params.Limit`). -/
structure ListPetsParams where
  Limit : Option Int
  deriving DecidableEq, Repr

/-- The request of `ListPets`. -/
structure ListPetsRequestObject where
  Params : ListPetsParams
  deriving DecidableEq, Repr

/-- The headers of the 200 response of `ListPets`. -/
structure ListPets200ResponseHeaders where
  XNext : GoString
  deriving DecidableEq, Repr

/-- The response `api.ListPets200JSONResponse`. -/
structure ListPets200JSONResponse where
  Body : List Pet
  Headers : ListPets200ResponseHeaders
  deriving DecidableEq, Repr

/-- The request of `DeleteSession`: it has no field. -/
structure DeleteSessionRequestObject where
  deriving DecidableEq, Repr

/-- The request of `GetSession`: it has no field. -/
structure GetSessionRequestObject where
  deriving DecidableEq, Repr

/-- The request of `Redirect`: it has no field. -/
structure RedirectRequestObject where
  deriving DecidableEq, Repr

/-- The headers of the 200 response of `DeleteSession`. -/
structure DeleteSession200ResponseHeaders where
  SetCookie : GoString
  deriving DecidableEq, Repr

/-- The response `api.DeleteSession200Response`. -/
structure DeleteSession200Response where
  Headers : DeleteSession200ResponseHeaders
  deriving DecidableEq, Repr

/-- The headers of the 200 response of `GetSession`. -/
structure GetSession200ResponseHeaders where
  SetCookie : GoString
  deriving DecidableEq, Repr

/-- The response `api.GetSession200Response`. -/
structure GetSession200Response where
  Headers : GetSession200ResponseHeaders
  deriving DecidableEq, Repr

/-- The headers of the 302 response of `Redirect`. -/
structure Redirect302ResponseHeaders where
  Location : GoString
  deriving DecidableEq, Repr

/-- The response `api.Redirect302Response`. -/
structure Redirect302Response where
  Headers : Redirect302ResponseHeaders
  deriving DecidableEq, Repr

/-! ## The server and its operations -/

/-- The type `Server`: the map `pets`. -/
structure Server where
  pets : AList (fun _ : Int => Pet)

/-- A run-time panic of the Go runtime. -/
inductive Panic where
  /-- A nil pointer was dereferenced. -/
  | nilDereference
  /-- The call `make([]T, len, cap)` got a negative capacity. -/
  | makesliceCapOutOfRange
  deriving DecidableEq, Repr

/-- What a call of an operation did: it returned a response (or `nil`) and an error (or
`nil`), or it panicked. -/
inductive Call (α : Type) where
  | returned (response : Option α) (err : Option GoError)
  | panicked (p : Panic)
  deriving DecidableEq, Repr

/-- The method `Server.CreatePets` (main.go lines 138-145). -/
def Server.CreatePets (srv : Server) (request : CreatePetsRequestObject) :
    Server × Call CreatePetsResponseObject :=
  match request.Body with
  | none => (srv, .panicked .nilDereference)
  | some body =>
    ({ srv with pets := srv.pets.insert body.Id body },
      .returned (some .CreatePets201Response) none)

/-- The cookie `DeleteSession` builds (main.go lines 152-156). -/
def DeleteSession.cookie : Cookie :=
  { Name := ascii "SESSSION", Value := [], MaxAge := -1 }

/-- The method `Server.DeleteSession` (main.go lines 148-163). -/
def Server.DeleteSession (srv : Server) (_request : DeleteSessionRequestObject) :
    Server × Call DeleteSession200Response :=
  (srv, .returned (some { Headers := { SetCookie := DeleteSession.cookie.String } }) none)

/-- The cookie `GetSession` builds (main.go lines 170-173); `newString` is the value of
`uuid.NewString()`. -/
def GetSession.cookie (newString : GoString) : Cookie :=
  { Name := ascii "SESSION", Value := newString }

/-- The method `Server.GetSession` (main.go lines 166-180); `newString` is the value of
`uuid.NewString()`. -/
def Server.GetSession (srv : Server) (_request : GetSessionRequestObject)
    (newString : GoString) :
    Server × Call GetSession200Response :=
  (srv, .returned (some { Headers := { SetCookie := (GetSession.cookie newString).String } }) none)

/-- The method `Server.ListPets` (main.go lines 183-199). Go does not fix the order in which
`range` visits a map; `order` is the sequence of entries this run of the loop visits. -/
def Server.ListPets (srv : Server) (request : ListPetsRequestObject)
    (order : List (Sigma fun _ : Int => Pet)) : Server × Call ListPets200JSONResponse :=
  match request.Params.Limit with
  | none => (srv, .panicked .nilDereference)
  | some limit =>
    if limit < 0 then (srv, .panicked .makesliceCapOutOfRange)
    else
      let pets : List Pet := order.foldl (fun pets e => pets ++ [e.2]) []
      (srv, .returned (some { Body := pets, Headers := { XNext := ascii "next" } }) none)

/-- The method `Server.Redirect` (main.go lines 202-211). -/
def Server.Redirect (srv : Server) (_request : RedirectRequestObject) :
    Server × Call Redirect302Response :=
  (srv, .returned (some { Headers := { Location := ascii "https://example.com" } }) none)

/-- The method `Server.ShowPetById` (main.go lines 214-233). -/
def Server.ShowPetById (srv : Server) (request : ShowPetByIdRequestObject) :
    Server × Call ShowPetByIdResponseObject :=
  match ParseInt request.PetId with
  | (_, some err) => (srv, .returned none (some (.NumError err.Func err.Num err.Err)))
  | (petID, none) =>
    match srv.pets.lookup petID with
    | none => (srv, .returned (some .ShowPetById404JSONResponse) none)
    | some pet =>
      (srv, .returned (some (.ShowPetById200JSONResponse petID pet.Name pet.Tag)) none)

/-! ## The middleware chain of `main` -/

/-- An `echo.Context` as far as the chain uses it: the request, and the responses written
through `c.JSON`, each a status code with the value sent as JSON. -/
structure Context where
  request : Request := {}
  written : List (Nat × GoError) := []
  deriving DecidableEq, Repr

/-- The type `echo.HandlerFunc`: the context after the call and the error returned. -/
abbrev HandlerFunc := Context → Context × Option GoError

/-- The type `echo.MiddlewareFunc`. -/
abbrev MiddlewareFunc := HandlerFunc → HandlerFunc

/-- The method `echo.Context.JSON(code, i)`: writes the response with status `code` and the
JSON encoding of `i`; encoding and writing are taken to succeed. -/
def Context.JSON (c : Context) (code : Nat) (i : GoError) : Context × Option GoError :=
  ({ c with written := c.written ++ [(code, i)] }, none)

/-- The value of `http.StatusInternalServerError`. -/
def StatusInternalServerError : Nat := 500

/-- The function `ErrorHandler` (main.go lines 122-129). -/
def ErrorHandler (next : HandlerFunc) : HandlerFunc :=
  fun c =>
    match next c with
    | (c, some err) => c.JSON StatusInternalServerError err
    | (c, none) => (c, none)

/-- The middleware `echomiddleware.OapiRequestValidatorWithOptions(swagger, options)`:
`validate` is the validation of the request against the contract, the calls of
`options.AuthenticationFunc` for the security requirements of the route included, with the
error as the library wraps it. `main` sets no `ErrorHandler` in the options: when the
validation fails the middleware returns the error and does not call `next`. -/
def OapiRequestValidatorWithOptions (validate : Request → Option GoError) : MiddlewareFunc :=
  fun next c =>
    match validate c.request with
    | some err => (c, some err)
    | none => next c

/-- The handler echo runs for a route: the middleware registered with `e.Use`, the one
registered first outermost, around the route handler. -/
def applyMiddleware (h : HandlerFunc) (middleware : List MiddlewareFunc) : HandlerFunc :=
  middleware.foldr (fun m h => m h) h

/-- The chain `main` builds (main.go lines 83-93): `e.Use` of the request validator, then
`e.Use(ErrorHandler)`, around the registered handler `hdl`. The logger and recover
middleware registered before them stand outside and are left out. -/
def chain (validate : Request → Option GoError) (hdl : HandlerFunc) : HandlerFunc :=
  applyMiddleware hdl [OapiRequestValidatorWithOptions validate, ErrorHandler]

/-! ## Concrete inputs -/

/-- A request with the header `Authorization: Bearer token`, checked for `bearerAuth`. -/
def bearerInput : AuthenticationInput :=
  { RequestValidationInput :=
      { Request := { Header := [(ascii "Authorization", [ascii "Bearer token"])] } },
    SecuritySchemeName := ascii "bearerAuth" }

/-- A request with the cookie `SESSION=abc`, checked for `cookieAuth`. -/
def cookieInput : AuthenticationInput :=
  { RequestValidationInput :=
      { Request := { Cookies := [{ Name := ascii "SESSION", Value := ascii "abc" }] } },
    SecuritySchemeName := ascii "cookieAuth" }

/-- A request with only a cookie `OTHER=abc`, checked for `cookieAuth`. -/
def otherCookieInput : AuthenticationInput :=
  { RequestValidationInput :=
      { Request := { Cookies := [{ Name := ascii "OTHER", Value := ascii "abc" }] } },
    SecuritySchemeName := ascii "cookieAuth" }

/-- The server `main` starts with: no pets. -/
def emptyServer : Server := { pets := ∅ }

/-- A pet with identifier 42. -/
def pet42 : Pet := { Id := 42, Name := ascii "pochi", Tag := some (ascii "dog") }

/-- Another pet with identifier 42. -/
def pet42b : Pet := { Id := 42, Name := ascii "tama", Tag := none }

/-- A server that stores `pet42` only. -/
def server42 : Server := (emptyServer.CreatePets { Body := some pet42 }).1

/-- A validation whose one check is the authentication function for `bearerAuth`. -/
def bearerValidate : Request → Option GoError :=
  fun r => AuthenticationFunc { RequestValidationInput := { Request := r },
                                SecuritySchemeName := ascii "bearerAuth" }

/-- A validation that accepts every request. -/
def acceptAll : Request → Option GoError := fun _ => none

/-- A route handler that returns no error and writes nothing through `c.JSON`. -/
def quietHandler : HandlerFunc := fun c => (c, none)

/-- The error `ShowPetById` returns for the path `/pets/abc`. -/
def abcError : GoError := .NumError (ascii "ParseInt") (ascii "abc") .ErrSyntax

/-- A route handler that returns the error of the business operation for `/pets/abc`. -/
def abcHandler : HandlerFunc := fun c => (c, some abcError)

/-! ## Lemmas on `Split` -/

theorem Split_ne_nil (s : GoString) (sep : Nat) : Split s sep ≠ [] := by
  induction s with
  | nil => simp [Split]
  | cons c cs ih =>
    unfold Split
    split
    · simp
    · split
      · simp
      · simp

/-- A split into one segment: the string has no separator and is that segment. -/
theorem Split_single (s : GoString) (sep : Nat) (b : GoString) (h : Split s sep = [b]) :
    s = b := by
  induction s generalizing b with
  | nil =>
    simp only [Split, List.cons.injEq, and_true] at h
    exact h
  | cons d ds ih =>
    unfold Split at h
    split at h
    · injection h with _ h2
      exact absurd h2 (Split_ne_nil _ _)
    · split at h
      · rename_i hnil
        exact absurd hnil (Split_ne_nil _ _)
      · rename_i seg segs hseg
        injection h with h3 h4
        subst h4
        subst h3
        rw [ih seg hseg]

/-- A split into two segments: the string is the first, the separator, the second. -/
theorem Split_pair (s : GoString) (sep : Nat) (a b : GoString) (h : Split s sep = [a, b]) :
    s = a ++ sep :: b := by
  induction s generalizing a with
  | nil => simp [Split] at h
  | cons c cs ih =>
    unfold Split at h
    split at h
    · rename_i hc
      subst hc
      injection h with h1 h2
      subst h1
      rw [Split_single cs c b h2]
      rfl
    · split at h
      · rename_i hnil
        exact absurd hnil (Split_ne_nil _ _)
      · rename_i seg segs hseg
        injection h with h1 h2
        subst h1
        subst h2
        rw [ih seg hseg]
        rfl

/-! ## Lemmas on `ParseUint` and `ParseInt` -/

theorem maxUint64_eq : maxUint64 = 18446744073709551615 := by decide

theorem digitVal_digit (c : Nat) (h : 48 ≤ c ∧ c ≤ 57) : digitVal c = some (c - 48) := by
  simp [digitVal, h]

theorem digitVal_other (c : Nat) (h : ¬ (48 ≤ c ∧ c ≤ 57)) :
    digitVal c = none ∨ ∃ d, 10 ≤ d ∧ digitVal c = some d := by
  unfold digitVal
  rw [if_neg h]
  by_cases hl : 97 ≤ lower c ∧ lower c ≤ 122
  · right
    exact ⟨lower c - 97 + 10, by omega, by rw [if_pos hl]⟩
  · left
    rw [if_neg hl]

theorem foldl_digits_ge (cs : GoString) (a : Nat) :
    a ≤ cs.foldl (fun a c => 10 * a + (c - 48)) a := by
  induction cs generalizing a with
  | nil => exact Nat.le_refl _
  | cons c cs ih =>
    have := ih (10 * a + (c - 48))
    simp only [List.foldl_cons]
    omega

/-- On decimal digits whose value fits in a `uint64` the loop returns that value. -/
theorem ParseUint_loop_ok (s0 cs : GoString) (n : Nat)
    (hd : ∀ c ∈ cs, 48 ≤ c ∧ c ≤ 57)
    (hv : cs.foldl (fun a c => 10 * a + (c - 48)) n ≤ maxUint64) :
    ParseUint.loop s0 n cs = (cs.foldl (fun a c => 10 * a + (c - 48)) n, none) := by
  induction cs generalizing n with
  | nil => rfl
  | cons c cs ih =>
    have hc := hd c (List.mem_cons_self _ _)
    simp only [List.foldl_cons] at hv ⊢
    have hge := foldl_digits_ge cs (10 * n + (c - 48))
    rw [maxUint64_eq] at hv
    have h1 : (n * 10 % 2 ^ 64 + (c - 48)) % 2 ^ 64 = 10 * n + (c - 48) := by omega
    have h2 : n * 10 % 2 ^ 64 = 10 * n := by omega
    have h3 : (10 * n + (c - 48)) % 2 ^ 64 = 10 * n + (c - 48) := by omega
    unfold ParseUint.loop
    rw [digitVal_digit c hc]
    simp only [h1, h2, h3, maxUint64_eq]
    rw [if_neg (by omega), if_neg (by omega), if_neg (by omega)]
    exact ih _ (fun x hx => hd x (List.mem_cons_of_mem _ hx)) (by rw [maxUint64_eq]; exact hv)

/-- On every other input the loop returns a syntax error, or a range error with the value
`maxUint64`. -/
theorem ParseUint_loop_err (s0 cs : GoString) (n : Nat) (hn : n ≤ maxUint64)
    (h : ¬ ((∀ c ∈ cs, 48 ≤ c ∧ c ≤ 57) ∧
      cs.foldl (fun a c => 10 * a + (c - 48)) n ≤ maxUint64)) :
    ParseUint.loop s0 n cs = (0, some ⟨ascii "ParseUint", s0, .ErrSyntax⟩) ∨
      ParseUint.loop s0 n cs = (maxUint64, some ⟨ascii "ParseUint", s0, .ErrRange⟩) := by
  induction cs generalizing n with
  | nil =>
    exfalso
    apply h
    exact ⟨fun c hc => absurd hc (List.not_mem_nil c), hn⟩
  | cons c cs ih =>
    unfold ParseUint.loop
    by_cases hc : 48 ≤ c ∧ c ≤ 57
    · rw [digitVal_digit c hc]
      simp only []
      rw [if_neg (by omega)]
      by_cases hcut : n ≥ maxUint64 / 10 + 1
      · rw [if_pos hcut]
        exact Or.inr rfl
      · rw [if_neg hcut]
        rw [maxUint64_eq] at hcut hn
        have h2 : n * 10 % 2 ^ 64 = 10 * n := by omega
        by_cases hov : 10 * n + (c - 48) ≤ 18446744073709551615
        · have h1 : (n * 10 % 2 ^ 64 + (c - 48)) % 2 ^ 64 = 10 * n + (c - 48) := by omega
          have h3 : (10 * n + (c - 48)) % 2 ^ 64 = 10 * n + (c - 48) := by omega
          simp only [h1, h2, h3, maxUint64_eq]
          rw [if_neg (by omega)]
          apply ih _ (by rw [maxUint64_eq]; exact hov)
          intro hh
          apply h
          refine ⟨?_, ?_⟩
          · intro x hx
            rcases List.mem_cons.1 hx with rfl | hx
            · exact hc
            · exact hh.1 x hx
          · simpa only [List.foldl_cons] using hh.2
        · have h1 : (n * 10 % 2 ^ 64 + (c - 48)) % 2 ^ 64 < n * 10 % 2 ^ 64 := by omega
          rw [if_pos (Or.inl h1)]
          exact Or.inr rfl
    · rcases digitVal_other c hc with h0 | ⟨d, hd, h0⟩
      · rw [h0]
        exact Or.inl rfl
      · rw [h0]
        simp only []
        rw [if_pos hd]
        exact Or.inl rfl

theorem isDigits_iff (ds : GoString) :
    isDigits ds = true ↔ ds ≠ [] ∧ ∀ c ∈ ds, 48 ≤ c ∧ c ≤ 57 := by
  cases ds with
  | nil => simp [isDigits]
  | cons c cs => simp [isDigits]

theorem ParseUint_ok (ds : GoString) (hd : isDigits ds = true)
    (hv : digitsValue ds ≤ maxUint64) : ParseUint ds = (digitsValue ds, none) := by
  obtain ⟨hne, hall⟩ := (isDigits_iff ds).1 hd
  unfold ParseUint
  rw [if_neg hne]
  exact ParseUint_loop_ok ds ds 0 hall hv

theorem ParseUint_err (ds : GoString)
    (h : ¬ (isDigits ds = true ∧ digitsValue ds ≤ maxUint64)) :
    ParseUint ds = (0, some ⟨ascii "ParseUint", ds, .ErrSyntax⟩) ∨
      ParseUint ds = (maxUint64, some ⟨ascii "ParseUint", ds, .ErrRange⟩) := by
  unfold ParseUint
  by_cases hne : ds = []
  · rw [if_pos hne]
    exact Or.inl rfl
  · rw [if_neg hne]
    apply ParseUint_loop_err ds ds 0 (Nat.zero_le _)
    intro hh
    exact h ⟨(isDigits_iff ds).2 ⟨hne, hh.1⟩, hh.2⟩

theorem ParseInt_sign_cases (s : GoString) (hs : s ≠ []) :
    (∃ t, s = 43 :: t ∧ ParseInt.sign s = (false, t)) ∨
    (∃ t, s = 45 :: t ∧ ParseInt.sign s = (true, t)) ∨
    (∃ c t, s = c :: t ∧ c ≠ 43 ∧ c ≠ 45 ∧ ParseInt.sign s = (false, s)) := by
  cases s with
  | nil => exact absurd rfl hs
  | cons c t =>
    by_cases h43 : c = 43
    · subst h43
      exact Or.inl ⟨t, rfl, rfl⟩
    · by_cases h45 : c = 45
      · subst h45
        exact Or.inr (Or.inl ⟨t, rfl, rfl⟩)
      · refine Or.inr (Or.inr ⟨c, t, rfl, h43, h45, ?_⟩)
        unfold ParseInt.sign
        split
        · rename_i heq
          injection heq with heq _
          exact absurd heq h43
        · rename_i heq
          injection heq with heq _
          exact absurd heq h45
        · rfl

/-- The base-10 literal read through the sign step of `ParseInt`. -/
theorem decimalValue_eq_sign (s : GoString) :
    decimalValue s =
      if isDigits (ParseInt.sign s).2 = true then
        some (if (ParseInt.sign s).1 = true then -(digitsValue (ParseInt.sign s).2 : Int)
          else (digitsValue (ParseInt.sign s).2 : Int))
      else none := by
  by_cases hs : s = []
  · subst hs
    rfl
  · rcases ParseInt_sign_cases s hs with ⟨t, rfl, h⟩ | ⟨t, rfl, h⟩ | ⟨c, t, rfl, h43, h45, h⟩
    · rw [h]
      rfl
    · rw [h]
      rfl
    · rw [h]
      unfold decimalValue
      split
      · rename_i heq
        injection heq with heq _
        exact absurd heq h43
      · rename_i heq
        injection heq with heq _
        exact absurd heq h45
      · rfl

theorem digits_of_sign_nonempty (s : GoString) (h : isDigits (ParseInt.sign s).2 = true) :
    s ≠ [] := by
  intro hs
  subst hs
  simp [ParseInt.sign, isDigits] at h

/-- A base-10 literal with a value in the range of `int64` parses to that value. -/
theorem ParseInt_ok (s : GoString) (v : Int) (hv : decimalValue s = some v) (hr : inInt64 v) :
    ParseInt s = (v, none) := by
  rw [decimalValue_eq_sign] at hv
  by_cases hd : isDigits (ParseInt.sign s).2 = true
  · rw [if_pos hd] at hv
    have hs := digits_of_sign_nonempty s hd
    injection hv with hv
    unfold inInt64 at hr
    unfold ParseInt
    rw [if_neg hs]
    cases hneg : (ParseInt.sign s).1
    · rw [hneg] at hv
      simp only [Bool.false_eq_true, if_false] at hv
      have hle : digitsValue (ParseInt.sign s).2 ≤ maxUint64 := by
        rw [maxUint64_eq]
        omega
      simp only [ParseUint_ok _ hd hle]
      have hlt : ¬ digitsValue (ParseInt.sign s).2 ≥ 2 ^ 63 := by omega
      simp only [Bool.not_false, Bool.true_and, decide_eq_true_eq, hlt, if_false,
        Bool.false_and, Bool.false_eq_true]
      unfold toInt64
      have hval : ((digitsValue (ParseInt.sign s).2 : Int) + 2 ^ 63) % 2 ^ 64 - 2 ^ 63 = v := by
        omega
      rw [hval]
    · rw [hneg] at hv
      simp only [if_true] at hv
      have hle : digitsValue (ParseInt.sign s).2 ≤ maxUint64 := by
        rw [maxUint64_eq]
        omega
      simp only [ParseUint_ok _ hd hle]
      have hlt : ¬ digitsValue (ParseInt.sign s).2 > 2 ^ 63 := by omega
      simp only [Bool.not_true, Bool.false_and, Bool.true_and, decide_eq_true_eq, hlt, if_false,
        Bool.false_eq_true, if_true]
      unfold toInt64
      have hval : (-(((digitsValue (ParseInt.sign s).2 : Int) + 2 ^ 63) % 2 ^ 64 - 2 ^ 63)
          + 2 ^ 63) % 2 ^ 64 - 2 ^ 63 = v := by
        omega
      rw [hval]
  · rw [if_neg hd] at hv
    exact absurd hv (by simp)

/-- A string that is no base-10 signed 64-bit integer makes `ParseInt` return an error. -/
theorem ParseInt_err (s : GoString) (h : ¬ isInt64Decimal s) :
    ∃ x e, ParseInt s = (x, some ⟨ascii "ParseInt", s, e⟩) := by
  unfold ParseInt
  by_cases hs : s = []
  · rw [if_pos hs]
    exact ⟨_, _, rfl⟩
  · rw [if_neg hs]
    by_cases hok : isDigits (ParseInt.sign s).2 = true ∧
        digitsValue (ParseInt.sign s).2 ≤ maxUint64
    · obtain ⟨hd, hle⟩ := hok
      simp only [ParseUint_ok _ hd hle]
      unfold isInt64Decimal at h
      rw [decimalValue_eq_sign, if_pos hd] at h
      simp only [inInt64] at h
      cases hneg : (ParseInt.sign s).1
      · rw [hneg] at h
        simp only [Bool.false_eq_true, if_false] at h
        have hge : digitsValue (ParseInt.sign s).2 ≥ 2 ^ 63 := by omega
        simp only [Bool.not_false, Bool.true_and, decide_eq_true_eq, hge, if_true]
        exact ⟨_, _, rfl⟩
      · rw [hneg] at h
        simp only [if_true] at h
        have hgt : digitsValue (ParseInt.sign s).2 > 2 ^ 63 := by omega
        simp only [Bool.not_true, Bool.false_and, Bool.true_and, decide_eq_true_eq, hgt, if_true,
          Bool.false_eq_true, if_false]
        exact ⟨_, _, rfl⟩
    · rcases ParseUint_err _ hok with he | he
      · simp only [he]
        exact ⟨_, _, rfl⟩
      · simp only [he]
        have hge : maxUint64 ≥ 2 ^ 63 := by decide
        have hgt : maxUint64 > 2 ^ 63 := by decide
        cases hneg : (ParseInt.sign s).1
        · simp only [Bool.not_false, Bool.true_and, decide_eq_true_eq, hge, if_true]
          exact ⟨_, _, rfl⟩
        · simp only [Bool.not_true, Bool.false_and, Bool.true_and, decide_eq_true_eq, hgt,
            if_true, Bool.false_eq_true, if_false]
          exact ⟨_, _, rfl⟩

/-- The function `ParseInt` returns a value and no error exactly on the base-10 literals with
a value in the range of `int64`, and the value is the one the literal denotes. -/
theorem ParseInt_iff (s : GoString) (n : Int) :
    ParseInt s = (n, none) ↔ decimalValue s = some n ∧ inInt64 n := by
  constructor
  · intro h
    by_cases hd : isInt64Decimal s
    · unfold isInt64Decimal at hd
      cases hv : decimalValue s with
      | none =>
        rw [hv] at hd
        exact absurd hd not_false
      | some v =>
        rw [hv] at hd
        have hpv := ParseInt_ok s v hv hd
        rw [hpv] at h
        injection h with h1 _
        subst h1
        exact ⟨rfl, hd⟩
    · obtain ⟨x, e, he⟩ := ParseInt_err s hd
      rw [he] at h
      injection h with _ h2
      exact absurd h2 (by simp)
  · intro h
    exact ParseInt_ok s n h.1 h.2

/-! ## `FormatInt` writes a base-10 literal that denotes the number -/

theorem formatBits_value (fuel u : Nat) (acc : GoString) (h : u < fuel) :
    (formatBits fuel u acc).foldl (fun a c => 10 * a + (c - 48)) 0 =
      acc.foldl (fun a c => 10 * a + (c - 48)) u := by
  induction fuel generalizing u acc with
  | zero => omega
  | succ fuel ih =>
    unfold formatBits
    by_cases hu : u < 10
    · rw [if_pos hu]
      simp only [List.foldl_cons]
      congr 1
      omega
    · rw [if_neg hu, ih (u / 10) _ (by omega)]
      simp only [List.foldl_cons]
      congr 1
      omega

theorem formatBits_digits (fuel u : Nat) (acc : GoString)
    (hacc : ∀ c ∈ acc, 48 ≤ c ∧ c ≤ 57) : ∀ c ∈ formatBits fuel u acc, 48 ≤ c ∧ c ≤ 57 := by
  induction fuel generalizing u acc with
  | zero => exact hacc
  | succ fuel ih =>
    unfold formatBits
    by_cases hu : u < 10
    · rw [if_pos hu]
      intro c hc
      rcases List.mem_cons.1 hc with rfl | hc
      · omega
      · exact hacc c hc
    · rw [if_neg hu]
      apply ih
      intro c hc
      rcases List.mem_cons.1 hc with rfl | hc
      · omega
      · exact hacc c hc

theorem formatBits_ne_nil (fuel u : Nat) (acc : GoString) :
    formatBits (fuel + 1) u acc ≠ [] := by
  induction fuel generalizing u acc with
  | zero =>
    unfold formatBits
    by_cases hu : u < 10
    · rw [if_pos hu]
      exact List.cons_ne_nil _ _
    · rw [if_neg hu]
      exact List.cons_ne_nil _ _
  | succ fuel ih =>
    unfold formatBits
    by_cases hu : u < 10
    · rw [if_pos hu]
      exact List.cons_ne_nil _ _
    · rw [if_neg hu]
      exact ih _ _

theorem formatBits_isDigits (u : Nat) : isDigits (formatBits (u + 1) u []) = true :=
  (isDigits_iff _).2 ⟨formatBits_ne_nil u u [],
    formatBits_digits (u + 1) u [] (fun c hc => absurd hc (List.not_mem_nil c))⟩

theorem formatBits_digitsValue (u : Nat) : digitsValue (formatBits (u + 1) u []) = u := by
  unfold digitsValue
  rw [formatBits_value (u + 1) u [] (Nat.lt_succ_self u)]
  rfl

/-- A string of digits carries no sign. -/
theorem sign_of_isDigits (ds : GoString) (h : isDigits ds = true) :
    ParseInt.sign ds = (false, ds) := by
  obtain ⟨hne, hall⟩ := (isDigits_iff ds).1 h
  rcases ParseInt_sign_cases ds hne with ⟨t, rfl, _⟩ | ⟨t, rfl, _⟩ | ⟨c, t, rfl, _, _, hsign⟩
  · have := hall 43 (List.mem_cons_self _ _)
    omega
  · have := hall 45 (List.mem_cons_self _ _)
    omega
  · exact hsign

/-- The string `FormatInt` writes is a base-10 literal of the number. -/
theorem decimalValue_FormatInt (i : Int) : decimalValue (FormatInt i) = some i := by
  rw [decimalValue_eq_sign]
  unfold FormatInt
  by_cases hi : i < 0
  · rw [if_pos hi]
    have hsign : ParseInt.sign (45 :: formatBits ((-i).toNat + 1) (-i).toNat []) =
        (true, formatBits ((-i).toNat + 1) (-i).toNat []) := rfl
    rw [hsign]
    simp only [formatBits_isDigits, formatBits_digitsValue, if_true]
    congr 1
    omega
  · rw [if_neg hi, sign_of_isDigits _ (formatBits_isDigits _)]
    simp only [formatBits_isDigits, formatBits_digitsValue, if_true, Bool.false_eq_true, if_false]
    congr 1
    omega

/-- Reading back what `FormatInt` wrote gives the number, for every `int64`. -/
theorem ParseInt_FormatInt (i : Int) (h : inInt64 i) : ParseInt (FormatInt i) = (i, none) :=
  ParseInt_ok _ i (decimalValue_FormatInt i) h

/-! ## The authentication function -/

/-- C1: for every value of the `Authorization` header, the authentication function called for
the scheme `bearerAuth` returns no error if and only if the value is exactly `Bearer token`;
for every other value it returns an error. -/
theorem bearerAuth_iff_exact (ai : AuthenticationInput)
    (hs : ai.SecuritySchemeName = ascii "bearerAuth") :
    (AuthenticationFunc ai = none ↔
      ai.RequestValidationInput.Request.Header.Get (ascii "Authorization") =
        ascii "Bearer token") ∧
    (ai.RequestValidationInput.Request.Header.Get (ascii "Authorization") ≠
        ascii "Bearer token" → ∃ err, AuthenticationFunc ai = some err) := by
  have hiff : AuthenticationFunc ai = none ↔
      ai.RequestValidationInput.Request.Header.Get (ascii "Authorization") =
        ascii "Bearer token" := by
    unfold AuthenticationFunc
    rw [if_pos hs]
    constructor
    · intro h
      simp only [] at h
      split at h
      · rename_i a0 a1 hsplit
        by_cases h0 : a0 = ascii "Bearer"
        · by_cases h1 : a1 = ascii "token"
          · rw [Split_pair _ _ _ _ hsplit, h0, h1]
            decide
          · simp [h0, h1] at h
        · simp [h0] at h
      · simp at h
    · intro h
      rw [h]
      decide
  refine ⟨hiff, fun hne => ?_⟩
  cases hres : AuthenticationFunc ai with
  | none => exact absurd (hiff.1 hres) hne
  | some err => exact ⟨err, rfl⟩

theorem bearerAuth_iff_exact_witness : AuthenticationFunc bearerInput = none :=
  (bearerAuth_iff_exact bearerInput rfl).1.2 (by decide)

/-- C2: for every request, the authentication function called for the scheme `cookieAuth`
returns no error when the request carries a cookie named `SESSION` with a non-empty value,
and returns an error when the request carries no cookie named `SESSION`. -/
theorem cookieAuth_session (ai : AuthenticationInput)
    (hs : ai.SecuritySchemeName = ascii "cookieAuth") :
    (∀ c ∈ ai.RequestValidationInput.Request.Cookies,
      c.Name = ascii "SESSION" → c.Value ≠ [] → AuthenticationFunc ai = none) ∧
    ((∀ c ∈ ai.RequestValidationInput.Request.Cookies, c.Name ≠ ascii "SESSION") →
      AuthenticationFunc ai = some (.wrap (ascii "cookie not found: ") .ErrNoCookie)) := by
  have hne : ai.SecuritySchemeName ≠ ascii "bearerAuth" := by
    rw [hs]
    decide
  have hname : ascii "SESSION" ≠ [] := by decide
  constructor
  · intro c hc hn _
    unfold AuthenticationFunc
    rw [if_neg hne, if_pos hs]
    unfold Request.Cookie
    rw [if_neg hname]
    cases hf : ai.RequestValidationInput.Request.Cookies.find?
        (fun c => decide (c.Name = ascii "SESSION")) with
    | none =>
      rw [List.find?_eq_none] at hf
      have := hf c hc
      simp [hn] at this
    | some c' => rfl
  · intro hall
    unfold AuthenticationFunc
    rw [if_neg hne, if_pos hs]
    unfold Request.Cookie
    rw [if_neg hname]
    have hf : ai.RequestValidationInput.Request.Cookies.find?
        (fun c => decide (c.Name = ascii "SESSION")) = none := by
      rw [List.find?_eq_none]
      intro c hc
      simpa using hall c hc
    rw [hf]

theorem cookieAuth_session_witness :
    AuthenticationFunc cookieInput = none ∧
    AuthenticationFunc otherCookieInput =
      some (.wrap (ascii "cookie not found: ") .ErrNoCookie) :=
  ⟨(cookieAuth_session cookieInput rfl).1 { Name := ascii "SESSION", Value := ascii "abc" }
      (List.mem_singleton.2 rfl) rfl (by decide),
    (cookieAuth_session otherCookieInput rfl).2 (by decide)⟩

/-! ## The pet store -/

/-- C3: for every store and every pet (any `int64` identifier, name and optional tag),
`CreatePets` stores the pet and answers 201, and then `ShowPetById` called with the base-10
string of the identifier returns the 200 response with the identifier, name and tag of
the pet, and no error. -/
theorem create_then_show (srv : Server) (p : Pet) (h : inInt64 p.Id) :
    (srv.CreatePets { Body := some p }).2 = .returned (some .CreatePets201Response) none ∧
    (srv.CreatePets { Body := some p }).1.ShowPetById { PetId := FormatInt p.Id } =
      ((srv.CreatePets { Body := some p }).1,
        .returned (some (.ShowPetById200JSONResponse p.Id p.Name p.Tag)) none) := by
  refine ⟨rfl, ?_⟩
  unfold Server.ShowPetById
  simp only [ParseInt_FormatInt p.Id h, Server.CreatePets, AList.lookup_insert]

theorem create_then_show_witness :
    inInt64 pet42.Id ∧
    (emptyServer.CreatePets { Body := some pet42 }).1.ShowPetById { PetId := ascii "42" } =
      ((emptyServer.CreatePets { Body := some pet42 }).1,
        .returned (some (.ShowPetById200JSONResponse 42 (ascii "pochi") (some (ascii "dog"))))
          none) :=
  ⟨by decide, (create_then_show emptyServer pet42 (by decide)).2⟩

/-- C4: `CreatePets` is an upsert keyed by the identifier of the pet: for every store and pets
`p`, `q` with the same identifier, creating `p` then `q` leaves the store that creating `q`
alone leaves; that store has exactly one entry under the identifier, the pet `q`; every
entry under another identifier is the one of the store before; and creating `p` twice
leaves the store that creating `p` once leaves. -/
theorem create_is_upsert (srv : Server) (p q : Pet) (h : p.Id = q.Id) :
    ((srv.CreatePets { Body := some p }).1.CreatePets { Body := some q }).1 =
      (srv.CreatePets { Body := some q }).1 ∧
    ((srv.CreatePets { Body := some p }).1.CreatePets { Body := some q }).1.pets.entries.filter
      (fun e => decide (e.1 = q.Id)) = [⟨q.Id, q⟩] ∧
    (∀ k, k ≠ q.Id →
      ((srv.CreatePets { Body := some p }).1.CreatePets { Body := some q }).1.pets.lookup k =
        srv.pets.lookup k) ∧
    ((srv.CreatePets { Body := some p }).1.CreatePets { Body := some p }).1 =
      (srv.CreatePets { Body := some p }).1 := by
  have hqq : ((srv.CreatePets { Body := some p }).1.CreatePets { Body := some q }).1 =
      (srv.CreatePets { Body := some q }).1 := by
    simp only [Server.CreatePets, h, AList.insert_insert]
  refine ⟨hqq, ?_, ?_, ?_⟩
  · rw [hqq]
    simp only [Server.CreatePets, AList.insert_entries]
    rw [List.filter_cons_of_pos (by simp)]
    congr 1
    rw [List.filter_eq_nil_iff]
    intro e he
    have hk := List.not_mem_keys_kerase q.Id srv.pets.nodupKeys
    have hmem := List.mem_keys_of_mem he
    intro heq
    simp only [decide_eq_true_eq] at heq
    rw [heq] at hmem
    exact hk hmem
  · intro k hk
    rw [hqq]
    simp only [Server.CreatePets]
    exact AList.lookup_insert_ne hk
  · simp only [Server.CreatePets, AList.insert_insert]

theorem create_is_upsert_witness :
    ((emptyServer.CreatePets { Body := some pet42 }).1.CreatePets { Body := some pet42b }).1 =
      (emptyServer.CreatePets { Body := some pet42b }).1 :=
  (create_is_upsert emptyServer pet42 pet42b rfl).1

/-- C5: for every store and every path identifier that is not a base-10 signed 64-bit
integer, `ShowPetById` returns an error (the `*strconv.NumError` of `ParseInt`) and no
response object, so not the 404 response, and leaves the store as it was. -/
theorem show_non_integer_is_error (srv : Server) (s : GoString) (h : ¬ isInt64Decimal s) :
    (∃ e, srv.ShowPetById { PetId := s } =
      (srv, .returned none (some (.NumError (ascii "ParseInt") s e)))) ∧
    (srv.ShowPetById { PetId := s }).2 ≠
      .returned (some .ShowPetById404JSONResponse) none := by
  obtain ⟨x, e, he⟩ := ParseInt_err s h
  have hres : srv.ShowPetById { PetId := s } =
      (srv, .returned none (some (.NumError (ascii "ParseInt") s e))) := by
    unfold Server.ShowPetById
    simp only [he]
  refine ⟨⟨e, hres⟩, ?_⟩
  rw [hres]
  intro hcontra
  injection hcontra with h1 _
  exact absurd h1 (by simp)

theorem show_non_integer_is_error_witness :
    (∃ e, server42.ShowPetById { PetId := ascii "abc" } =
      (server42, .returned none (some (.NumError (ascii "ParseInt") (ascii "abc") e)))) ∧
    (∃ e, server42.ShowPetById { PetId := [] } =
      (server42, .returned none (some (.NumError (ascii "ParseInt") [] e)))) ∧
    (∃ e, server42.ShowPetById { PetId := ascii "9223372036854775808" } =
      (server42, .returned none
        (some (.NumError (ascii "ParseInt") (ascii "9223372036854775808") e)))) :=
  ⟨(show_non_integer_is_error server42 (ascii "abc") (by decide)).1,
    (show_non_integer_is_error server42 [] (by decide)).1,
    (show_non_integer_is_error server42 (ascii "9223372036854775808") (by decide)).1⟩

/-- C6: for every store and every identifier string that is a base-10 literal of an integer
`n` in the range of `int64` with no entry stored under `n`, `ShowPetById` returns the 404
response, which carries nothing, and no error, and leaves the store as it was. -/
theorem show_missing_is_404 (srv : Server) (s : GoString) (n : Int)
    (hs : decimalValue s = some n) (hn : inInt64 n) (hl : srv.pets.lookup n = none) :
    srv.ShowPetById { PetId := s } =
      (srv, .returned (some .ShowPetById404JSONResponse) none) := by
  unfold Server.ShowPetById
  simp only [ParseInt_ok s n hs hn, hl]

theorem show_missing_is_404_witness :
    server42.ShowPetById { PetId := ascii "999" } =
      (server42, .returned (some .ShowPetById404JSONResponse) none) :=
  show_missing_is_404 server42 (ascii "999") 999 (by decide) (by decide) (by decide)

/-! ## The middleware chain -/

/-- C7, the claim as stated fails: on a request without `Authorization` header, checked by a
validation that runs the authentication function for `bearerAuth`, the chain of `main`
returns the error of the authentication function itself and `ErrorHandler` writes no
response; so it is not true that every error of the validation becomes a 500 response. -/
theorem validator_error_bypasses_ErrorHandler :
    chain bearerValidate quietHandler {} =
      ({}, some (.errorf (ascii "invalid authorization: "))) ∧
    ¬ (∀ (validate : Request → Option GoError) (hdl : HandlerFunc) (c : Context)
        (err : GoError), validate c.request = some err →
        (chain validate hdl c).1.written = c.written ++ [(StatusInternalServerError, err)]) := by
  have hrun : chain bearerValidate quietHandler {} =
      ({}, some (.errorf (ascii "invalid authorization: "))) := by decide
  refine ⟨hrun, fun hall => ?_⟩
  have h := hall bearerValidate quietHandler {} (.errorf (ascii "invalid authorization: "))
    (by decide)
  rw [hrun] at h
  exact absurd h (by decide)

/-- C7 as amended: for every request the validation accepts, an error the handler below
`ErrorHandler` returns (an error of a business operation) becomes the response with status
500 that carries the error as JSON, whatever the error is, and a handler that returns no
error is passed through untouched; an error of the validation (the authentication function
included) is returned by the validator middleware as it is, without a call of the handler
or of `ErrorHandler`. -/
theorem chain_error_handling (validate : Request → Option GoError) (hdl : HandlerFunc)
    (c : Context) :
    (validate c.request = none → ∀ c1 err, hdl c = (c1, some err) →
      chain validate hdl c = ({ c1 with written := c1.written ++ [(500, err)] }, none)) ∧
    (validate c.request = none → ∀ c1, hdl c = (c1, none) →
      chain validate hdl c = (c1, none)) ∧
    (∀ err, validate c.request = some err → chain validate hdl c = (c, some err)) := by
  refine ⟨fun hv c1 err hh => ?_, fun hv c1 hh => ?_, fun err hv => ?_⟩
  · simp only [chain, applyMiddleware, List.foldr, OapiRequestValidatorWithOptions, hv,
      ErrorHandler, hh, Context.JSON, StatusInternalServerError]
  · simp only [chain, applyMiddleware, List.foldr, OapiRequestValidatorWithOptions, hv,
      ErrorHandler, hh]
  · simp only [chain, applyMiddleware, List.foldr, OapiRequestValidatorWithOptions, hv]

theorem chain_error_handling_witness :
    chain acceptAll abcHandler {} = ({ written := [(500, abcError)] }, none) ∧
    chain acceptAll quietHandler {} = ({}, none) ∧
    chain bearerValidate abcHandler {} =
      ({}, some (.errorf (ascii "invalid authorization: "))) :=
  ⟨(chain_error_handling acceptAll abcHandler {}).1 rfl {} abcError rfl,
    (chain_error_handling acceptAll quietHandler {}).2.1 rfl {} rfl,
    (chain_error_handling bearerValidate abcHandler {}).2.2 _ (by decide)⟩

/-! ## The session cookie -/

/-- C8, what the code does: the cookie `DeleteSession` puts in `Set-Cookie` is named
`SESSSION`, the cookie `GetSession` issues, whatever its value, is named `SESSION`, the name
`cookieAuth` looks up; the two names differ. -/
theorem delete_cookie_name_differs (srv : Server) (newString : GoString) :
    (srv.DeleteSession {}).2 =
      .returned (some { Headers := { SetCookie := DeleteSession.cookie.String } }) none ∧
    setCookieName DeleteSession.cookie.String = ascii "SESSSION" ∧
    (srv.GetSession {} newString).2 =
      .returned (some { Headers := { SetCookie := (GetSession.cookie newString).String } })
        none ∧
    setCookieName (GetSession.cookie newString).String = ascii "SESSION" ∧
    DeleteSession.cookie.Name ≠ (GetSession.cookie newString).Name := by
  have hdiff : ascii "SESSSION" ≠ ascii "SESSION" := by decide
  refine ⟨rfl, by decide, rfl, ?_, hdiff⟩
  have hvalid : isCookieNameValid (ascii "SESSION") = true := by decide
  have hname : ascii "SESSION" = [83, 69, 83, 83, 73, 79, 78] := by decide
  simp only [Cookie.String, GetSession.cookie, hvalid, Bool.not_true, Bool.false_eq_true,
    if_false, setCookieName, hname]
  simp [List.takeWhile]

/-- C9: for every request and every store, `DeleteSession` returns the 200 response and no
error and leaves the store as it was; the `Set-Cookie` header of the response is the
header of a cookie with an empty value and a negative `MaxAge`, which `net/http` writes
as an empty value followed by `Max-Age=0`. -/
theorem delete_session_clears (srv : Server) (request : DeleteSessionRequestObject) :
    srv.DeleteSession request =
      (srv, .returned (some { Headers := { SetCookie := DeleteSession.cookie.String } }) none) ∧
    DeleteSession.cookie.Value = [] ∧
    DeleteSession.cookie.MaxAge < 0 ∧
    DeleteSession.cookie.String = DeleteSession.cookie.Name ++ ascii "=" ++ ascii "; Max-Age=0" :=
  ⟨rfl, rfl, by decide, by decide⟩

/-! ## Listing the pets -/

theorem foldl_append_singleton {α β : Type} (f : α → β) (l : List α) (init : List β) :
    l.foldl (fun acc e => acc ++ [f e]) init = init ++ l.map f := by
  induction l generalizing init with
  | nil => simp
  | cons x xs ih => simp [ih]

/-- A request with a limit that is present and not negative: `ListPets` returns the 200
response with the header `X-Next: next` and the stored pets, in the order the loop visits
the map, and leaves the store as it was. -/
theorem ListPets_returns (srv : Server) (limit : Int) (order : List (Sigma fun _ : Int => Pet))
    (hlimit : 0 ≤ limit) (horder : order.Perm srv.pets.entries) :
    srv.ListPets { Params := { Limit := some limit } } order =
      (srv, .returned (some { Body := order.map (fun e => e.2),
                              Headers := { XNext := ascii "next" } }) none) ∧
    (order.map (fun e => e.2)).Perm (srv.pets.entries.map (fun e => e.2)) := by
  refine ⟨?_, horder.map _⟩
  unfold Server.ListPets
  simp only [if_neg (not_lt.2 hlimit), foldl_append_singleton, List.nil_append]

/-- C10, what the code does on a request it cannot serve: with no `limit` (a nil pointer)
`ListPets` panics on the dereference, and with the limit -1 it panics in `make`; in both
cases it returns no response. -/
theorem ListPets_panics (srv : Server) (order : List (Sigma fun _ : Int => Pet)) :
    srv.ListPets { Params := { Limit := none } } order = (srv, .panicked .nilDereference) ∧
    srv.ListPets { Params := { Limit := some (-1) } } order =
      (srv, .panicked .makesliceCapOutOfRange) :=
  ⟨rfl, rfl⟩

end StrictServer
